import Mathlib

/-! Digital Contracting Service: OIDC authentication and role authorization.

A shallow embedding of `internal/middleware/oidc.go` and `internal/auth/handler.go`.

Modelling conventions.

* Go strings are Lean strings. The only string operations the code performs are
  equality, concatenation and the test for (and removal of) the ASCII prefix
  `"Bearer "`.
* A Go result pair `(T, error)` is a Lean pair `T × Option String`: the second
  component is `none` for a nil error and `some text` for an error whose
  `Error()` text is `text`.
* An HTTP handler is a function from the request to the list of effects it
  performs, in order. Calls into the standard library (`http.Error`) and into the
  validator are recorded as effects with the arguments of the call.
* The OIDC verifier of `go-oidc` is external: it is a field of the validator, a
  function giving the outcome of `Verify` for a context and a token.
* Where a property is about what a call reads or leaves behind, the function is
  also given with its memory passed explicitly; the library behind `Verify` then
  has a state of its own, which a call may change.
-/

namespace DCS

/-! ## Standard-library operations used by the code -/

/-- Go `strings.HasPrefix`: `len(s) >= len(prefix) && s[:len(prefix)] == prefix`. -/
def HasPrefix (s pre : String) : Bool :=
  decide (pre.data.length ≤ s.data.length) && (s.data.take pre.data.length == pre.data)

/-- Go `strings.TrimPrefix`: `s` without the leading `prefix`, or `s` itself when
`s` does not start with it. -/
def TrimPrefix (s pre : String) : String :=
  if HasPrefix s pre then ⟨s.data.drop pre.data.length⟩ else s

/-- Go `http.StatusUnauthorized`. -/
def StatusUnauthorized : Nat := 401

/-- Go `http.StatusForbidden`. -/
def StatusForbidden : Nat := 403

/-! ## Data model -/

/-- A value of Go type `interface{}` as produced by decoding a JSON payload into
`map[string]interface{}`: nil, bool, number, string, `[]interface{}` or
`map[string]interface{}`. Numbers are carried without arithmetic. -/
inductive Value where
  | null
  | bool (b : Bool)
  | number (n : Int)
  | string (s : String)
  | array (elems : List Value)
  | object (fields : List (String × Value))

/-- Go `map[string]interface{}`: indexing a missing key gives the nil interface,
here `none`. -/
abbrev Claims := List (String × Value)

/-- Go map indexing `m[key]`. -/
def Claims.index (m : Claims) (key : String) : Option Value :=
  List.lookup key m

/-- Go `type AuthContext struct { roles []string }`. -/
structure AuthContext where
  roles : List String
deriving DecidableEq, Repr

/-- A key of a `context.Context` value: a plain string, or a key of any other
type (which is never equal to a plain string). -/
inductive CtxKey where
  | str (s : String)
  | other (id : Nat)
deriving DecidableEq, Repr

/-- A value stored in a `context.Context`: an `AuthContext`, or a value of any
other dynamic type. -/
inductive CtxValue where
  | authContext (ac : AuthContext)
  | other (id : Nat)
deriving DecidableEq, Repr

/-- Go `context.Context`, as the chain of key/value pairs attached to it, the
most recently attached first. -/
abbrev Context := List (CtxKey × CtxValue)

/-- Go `ctx.Value(key)`: the value most recently attached under `key`, or nil. -/
def Context.Value (ctx : Context) (key : CtxKey) : Option CtxValue :=
  List.lookup key ctx

/-- Go `context.WithValue(ctx, key, val)`. -/
def WithValue (ctx : Context) (key : CtxKey) (val : CtxValue) : Context :=
  (key, val) :: ctx

/-- Go `http.Header`: canonical header names with their values. -/
abbrev Header := List (String × List String)

/-- Go `Header.Get(key)`: the first value stored under `key`, or `""`. -/
def Header.Get (h : Header) (key : String) : String :=
  match List.lookup key h with
  | some (v :: _) => v
  | _ => ""

/-- Go `*http.Request`, with the fields that identify a request here. -/
structure Request where
  Method : String
  URL : String
  Header : Header
  ctx : Context
deriving DecidableEq, Repr

/-- Go `r.Context()`. -/
def Request.Context (r : Request) : Context := r.ctx

/-- Go `r.WithContext(ctx)`: the same request carrying `ctx`. -/
def Request.WithContext (r : Request) (ctx : DCS.Context) : Request :=
  { r with ctx := ctx }

/-- An observable step of a handler.
* `validateToken token`: the call `validator.ValidateToken(r.Context(), token)`;
* `httpError error code`: the call `http.Error(w, error, code)`, which replies
  with status `code` and the plain-text message `error`;
* `handled r`: a terminal handler was run on request `r`. -/
inductive Effect where
  | validateToken (token : String)
  | httpError (error : String) (code : Nat)
  | handled (r : Request)
deriving DecidableEq, Repr

/-- Go `http.Handler`: `ServeHTTP(w, r)` as the effects it performs for `r`. -/
abbrev Handler := Request → List Effect

/-- A terminal handler that records the request it was invoked with. -/
def recordingHandler : Handler := fun r => [Effect.handled r]

/-! ## `internal/middleware/oidc.go` -/

/-- The outcome of `idToken.Claims(&claims)` for a verified token: the decoded
claims mapping, or the decoding error. -/
structure IDToken where
  Claims : Except String Claims

/-- Go `OIDCValidator`. Of its fields only `verifier` is used after
construction; `Verify ctx token` is the outcome of `v.verifier.Verify(ctx, token)`. -/
structure OIDCValidator where
  Verify : Context → String → Except String IDToken

/-- The loop of `extractRoles`: append every element that is a string. -/
def extractRoles_loop : List Value → List String → List String
  | [], roles => roles
  | Value.string roleStr :: rest, roles => extractRoles_loop rest (roles ++ [roleStr])
  | _ :: rest, roles => extractRoles_loop rest roles

/-- Go `extractRoles`. -/
def extractRoles (claims : Claims) : List String :=
  match claims.index "realm_access" with
  | some (Value.object ra) =>
    match Claims.index ra "roles" with
    | some (Value.array r) => extractRoles_loop r []
    | _ => []
  | _ => []

/-- Go `(*OIDCValidator).ValidateToken`. -/
def OIDCValidator.ValidateToken (v : OIDCValidator) (ctx : Context) (token : String) :
    List String × Option String :=
  match v.Verify ctx token with
  | Except.error err => ([], some ("token verification failed: " ++ err))
  | Except.ok idToken =>
    match idToken.Claims with
    | Except.error err => ([], some ("failed to parse token claims: " ++ err))
    | Except.ok claims => (extractRoles claims, none)

/-- The constant `bearerPrefix` of `ExtractBearerToken`. -/
def bearerPrefix : String := "Bearer "

/-- Go `ExtractBearerToken`. -/
def ExtractBearerToken (authHeader : String) : String × Option String :=
  if !HasPrefix authHeader bearerPrefix then
    ("", some "invalid authorization header format")
  else
    (TrimPrefix authHeader bearerPrefix, none)

/-- Go `GetRoles`. -/
def GetRoles (ctx : Context) : List String :=
  match ctx.Value (CtxKey.str "auth") with
  | some (CtxValue.authContext ac) => ac.roles
  | _ => []

/-- The loop of `HasRole` over the roles of the context. -/
def HasRole_loop (requiredRole : String) : List String → Bool
  | [] => false
  | role :: rest => if role = requiredRole then true else HasRole_loop requiredRole rest

/-- Go `HasRole`. -/
def HasRole (ctx : Context) (requiredRole : String) : Bool :=
  HasRole_loop requiredRole (GetRoles ctx)

/-- Go `InjectAuthContext`. -/
def InjectAuthContext (ctx : Context) (roles : List String) : Context :=
  WithValue ctx (CtxKey.str "auth") (CtxValue.authContext { roles := roles })

/-! ## `internal/auth/handler.go` -/

/-- Go `OIDCMiddleware`. -/
def OIDCMiddleware (validator : OIDCValidator) (next : Handler) : Handler := fun r =>
  let authHeader := r.Header.Get "Authorization"
  if authHeader = "" then
    [Effect.httpError "missing authorization header" StatusUnauthorized]
  else
    match ExtractBearerToken authHeader with
    | (_, some _) => [Effect.httpError "invalid authorization header" StatusUnauthorized]
    | (token, none) =>
      Effect.validateToken token ::
        match validator.ValidateToken r.Context token with
        | (_, some err) =>
          [Effect.httpError ("token validation failed: " ++ err) StatusUnauthorized]
        | (roles, none) =>
          let ctx := InjectAuthContext r.Context roles
          next (r.WithContext ctx)

/-- The loop of `AuthorizationMiddleware` that sets `hasRequiredRole`: it stops
at the first required role the context holds. -/
def AuthorizationMiddleware_loop (ctx : Context) : List String → Bool
  | [] => false
  | role :: rest => if HasRole ctx role then true else AuthorizationMiddleware_loop ctx rest

/-- Go `AuthorizationMiddleware`. -/
def AuthorizationMiddleware (requiredRoles : List String) (next : Handler) : Handler := fun r =>
  let ctx := r.Context
  let hasRequiredRole := AuthorizationMiddleware_loop ctx requiredRoles
  if !hasRequiredRole then
    [Effect.httpError "insufficient permissions" StatusForbidden]
  else
    next r

/-! ## Token validation over explicit memory

The same two functions of `internal/middleware/oidc.go`, written with the memory they
can reach passed in and handed back, so that what a call reads and what it leaves
behind can be stated. -/

/-- Go `OIDCConfig`. -/
structure OIDCConfig where
  IssuerURL : String
  ClientID : String
deriving DecidableEq, Repr

/-- The Go struct `OIDCValidator` as it lies in memory: `provider` and `verifier` are
pointers, given by the identity of the object pointed to; `config` is held by value. -/
structure OIDCValidatorFields where
  provider : Nat
  verifier : Nat
  config : OIDCConfig
deriving DecidableEq, Repr

/-- The memory a call `v.ValidateToken(ctx, token)` can reach: the struct `*v`, and
the state `lib` that the go-oidc objects behind `v.verifier` keep for themselves
(cached key set, clock). -/
structure Memory (σ : Type) where
  validator : OIDCValidatorFields
  lib : σ

/-- The go-oidc library as the code sees it: `Verify verifier s ctx token` is the
outcome of `verifier.Verify(ctx, token)` on the verifier object `verifier` while the
library is in state `s`, together with the state the library is in afterwards. -/
structure Library (σ : Type) where
  Verify : Nat → σ → Context → String → Except String IDToken × σ

/-- Go `extractRoles`, returning next to the roles the claims mapping as the call
leaves it. The body indexes `claims` and the nested mapping and ranges over the
sequence; its only assignments are to the local `roles`. -/
def extractRoles_mem (claims : Claims) : List String × Claims :=
  match claims.index "realm_access" with
  | some (Value.object ra) =>
    match Claims.index ra "roles" with
    | some (Value.array r) => (extractRoles_loop r [], claims)
    | _ => ([], claims)
  | _ => ([], claims)

/-- Go `(*OIDCValidator).ValidateToken`, returning next to its result the memory as
the call leaves it. The body reads `v.verifier`, calls `Verify` (which may change the
state of the library), decodes the claims of the verified token into a fresh local
mapping and passes that to `extractRoles`; it assigns to no field of `v`. -/
def ValidateToken_mem {σ : Type} (lib : Library σ) (m : Memory σ) (ctx : Context)
    (token : String) : (List String × Option String) × Memory σ :=
  match lib.Verify m.validator.verifier m.lib ctx token with
  | (Except.error err, s) =>
    (([], some ("token verification failed: " ++ err)), { m with lib := s })
  | (Except.ok idToken, s) =>
    match idToken.Claims with
    | Except.error err =>
      (([], some ("failed to parse token claims: " ++ err)), { m with lib := s })
    | Except.ok claims => (((extractRoles_mem claims).1, none), { m with lib := s })

/-- The validator of the value-level model that stands for `*v` while memory is `m`:
its `Verify` is the outcome the library gives in that state. -/
def Library.validatorAt {σ : Type} (lib : Library σ) (m : Memory σ) : OIDCValidator :=
  ⟨fun ctx token => (lib.Verify m.validator.verifier m.lib ctx token).1⟩

/-- A library whose state is its clock: it accepts the token `"a.b.c"`, with roles
`["admin", "editor"]`, while the clock is below `expiry`, and every call advances the
clock by one. -/
def clockLibrary (expiry : Nat) : Library Nat :=
  ⟨fun _ now _ token =>
    (if token = "a.b.c" then
      if now < expiry then
        Except.ok ⟨Except.ok [("realm_access", Value.object [("roles",
          Value.array [Value.string "admin", Value.string "editor"])])]⟩
      else Except.error "oidc: token is expired"
    else Except.error "oidc: malformed jwt", now + 1)⟩

/-! ## Specification-side definitions -/

/-- Specification: the string carried by a value, if the value is a string. -/
def Value.asString : Value → Option String
  | Value.string s => some s
  | _ => none

/-- Specification: the subsequence of the string elements of a sequence of values,
in their original order and with duplicates kept. -/
def stringElements (s : List Value) : List String :=
  s.filterMap Value.asString

/-- The role gate lets the request `r` through: the recording handler placed behind
`AuthorizationMiddleware requiredRoles` is run on `r`. -/
def gateAllows (requiredRoles : List String) (r : Request) : Prop :=
  Effect.handled r ∈ AuthorizationMiddleware requiredRoles recordingHandler r

/-! ## Lemmas on the string operations -/

theorem HasPrefix_iff (s pre : String) :
    HasPrefix s pre = true ↔ ∃ t : String, s = pre ++ t := by
  unfold HasPrefix
  simp only [Bool.and_eq_true, decide_eq_true_eq, beq_iff_eq]
  constructor
  · rintro ⟨_, h⟩
    refine ⟨⟨s.data.drop pre.data.length⟩, ?_⟩
    apply String.ext
    rw [String.data_append]
    conv_lhs => rw [← List.take_append_drop pre.data.length s.data, h]
  · rintro ⟨t, rfl⟩
    simp [String.data_append]

theorem TrimPrefix_append (pre t : String) : TrimPrefix (pre ++ t) pre = t := by
  have h : HasPrefix (pre ++ t) pre = true := (HasPrefix_iff _ _).2 ⟨t, rfl⟩
  unfold TrimPrefix
  rw [if_pos h]
  apply String.ext
  simp [String.data_append]

theorem append_left_cancel (pre a b : String) (h : pre ++ a = pre ++ b) : a = b := by
  have h2 := congrArg String.data h
  rw [String.data_append, String.data_append] at h2
  exact String.ext (List.append_cancel_left h2)

theorem ExtractBearerToken_append (t : String) :
    ExtractBearerToken (bearerPrefix ++ t) = (t, none) := by
  have h : HasPrefix (bearerPrefix ++ t) bearerPrefix = true := (HasPrefix_iff _ _).2 ⟨t, rfl⟩
  simp [ExtractBearerToken, h, TrimPrefix_append]

theorem ExtractBearerToken_of_not_hasPrefix (h : String)
    (hp : ¬ ∃ t : String, h = bearerPrefix ++ t) :
    ExtractBearerToken h = ("", some "invalid authorization header format") := by
  have hf : HasPrefix h bearerPrefix = false := by
    rw [← Bool.not_eq_true, HasPrefix_iff]
    exact hp
  simp [ExtractBearerToken, hf]

/-! ## Lemmas on the role loops -/

theorem HasRole_loop_iff (requiredRole : String) (roles : List String) :
    HasRole_loop requiredRole roles = true ↔ requiredRole ∈ roles := by
  induction roles with
  | nil => simp [HasRole_loop]
  | cons role rest ih =>
    by_cases h : role = requiredRole
    · simp [HasRole_loop, h]
    · have h2 : ¬ requiredRole = role := fun e => h e.symm
      simp [HasRole_loop, h, h2, ih]

theorem HasRole_iff (ctx : Context) (requiredRole : String) :
    HasRole ctx requiredRole = true ↔ requiredRole ∈ GetRoles ctx :=
  HasRole_loop_iff requiredRole (GetRoles ctx)

theorem AuthorizationMiddleware_loop_iff (ctx : Context) (requiredRoles : List String) :
    AuthorizationMiddleware_loop ctx requiredRoles = true ↔
      ∃ role ∈ requiredRoles, role ∈ GetRoles ctx := by
  induction requiredRoles with
  | nil => simp [AuthorizationMiddleware_loop]
  | cons role rest ih =>
    by_cases h : HasRole ctx role = true
    · have hm := (HasRole_iff ctx role).1 h
      simp [AuthorizationMiddleware_loop, h, hm]
    · have hm : role ∉ GetRoles ctx := fun hm => h ((HasRole_iff ctx role).2 hm)
      simp [AuthorizationMiddleware_loop, h, hm, ih]

theorem AuthorizationMiddleware_allow (requiredRoles : List String) (next : Handler)
    (r : Request) (h : ∃ role ∈ requiredRoles, role ∈ GetRoles r.ctx) :
    AuthorizationMiddleware requiredRoles next r = next r := by
  have hl := (AuthorizationMiddleware_loop_iff r.ctx requiredRoles).2 h
  simp [AuthorizationMiddleware, Request.Context, hl]

theorem AuthorizationMiddleware_deny (requiredRoles : List String) (next : Handler)
    (r : Request) (h : ¬ ∃ role ∈ requiredRoles, role ∈ GetRoles r.ctx) :
    AuthorizationMiddleware requiredRoles next r =
      [Effect.httpError "insufficient permissions" StatusForbidden] := by
  have hl : AuthorizationMiddleware_loop r.ctx requiredRoles = false := by
    rw [← Bool.not_eq_true, AuthorizationMiddleware_loop_iff]
    exact h
  simp [AuthorizationMiddleware, Request.Context, hl]

/-! ## Lemmas on the authentication handler -/

theorem bearer_append_ne_empty (t : String) : bearerPrefix ++ t ≠ "" := by
  intro h
  have h2 := congrArg String.length h
  rw [String.length_append] at h2
  have h3 : bearerPrefix.length = 7 := by decide
  have h4 : "".length = 0 := by decide
  omega

theorem OIDCMiddleware_missing (validator : OIDCValidator) (next : Handler) (r : Request)
    (h : r.Header.Get "Authorization" = "") :
    OIDCMiddleware validator next r =
      [Effect.httpError "missing authorization header" StatusUnauthorized] := by
  simp [OIDCMiddleware, h]

theorem OIDCMiddleware_invalid (validator : OIDCValidator) (next : Handler) (r : Request)
    (h : r.Header.Get "Authorization" ≠ "")
    (hp : ¬ ∃ t : String, r.Header.Get "Authorization" = bearerPrefix ++ t) :
    OIDCMiddleware validator next r =
      [Effect.httpError "invalid authorization header" StatusUnauthorized] := by
  simp [OIDCMiddleware, h, ExtractBearerToken_of_not_hasPrefix _ hp]

theorem OIDCMiddleware_bearer (validator : OIDCValidator) (next : Handler) (r : Request)
    (t : String) (h : r.Header.Get "Authorization" = bearerPrefix ++ t) :
    OIDCMiddleware validator next r =
      Effect.validateToken t ::
        match validator.ValidateToken r.Context t with
        | (_, some err) =>
          [Effect.httpError ("token validation failed: " ++ err) StatusUnauthorized]
        | (roles, none) => next (r.WithContext (InjectAuthContext r.Context roles)) := by
  simp [OIDCMiddleware, h, bearer_append_ne_empty, ExtractBearerToken_append]

theorem GetRoles_InjectAuthContext (ctx : Context) (roles : List String) :
    GetRoles (InjectAuthContext ctx roles) = roles := by
  simp [GetRoles, InjectAuthContext, WithValue, Context.Value]

/-! ## Lemmas on role extraction -/

theorem extractRoles_loop_eq (s : List Value) (roles : List String) :
    extractRoles_loop s roles = roles ++ stringElements s := by
  induction s generalizing roles with
  | nil => simp [extractRoles_loop, stringElements]
  | cons v rest ih =>
    cases v <;> simp [extractRoles_loop, ih, stringElements, Value.asString]

theorem extractRoles_of_roles (claims ra : Claims) (s : List Value)
    (h1 : claims.index "realm_access" = some (Value.object ra))
    (h2 : Claims.index ra "roles" = some (Value.array s)) :
    extractRoles claims = stringElements s := by
  simp [extractRoles, h1, h2, extractRoles_loop_eq]

theorem stringElements_map_string (strs : List String) :
    stringElements (strs.map Value.string) = strs := by
  induction strs with
  | nil => rfl
  | cons a rest ih =>
    simp only [stringElements, List.map_cons, List.filterMap_cons, Value.asString] at ih ⊢
    rw [ih]

theorem stringElements_sublist (s : List Value) :
    List.Sublist ((stringElements s).map Value.string) s := by
  induction s with
  | nil => simp [stringElements]
  | cons v rest ih =>
    cases v <;>
      simp only [stringElements, List.filterMap_cons, Value.asString, List.map_cons] at ih ⊢ <;>
      first
        | exact List.Sublist.cons₂ _ ih
        | exact List.Sublist.cons _ ih

theorem mem_stringElements (s : List Value) (str : String) :
    str ∈ stringElements s ↔ Value.string str ∈ s := by
  induction s with
  | nil => simp [stringElements]
  | cons v rest ih =>
    cases v <;>
      simp_all [stringElements, List.filterMap_cons, Value.asString, eq_comm]

theorem extractRoles_no_realm_access (claims : Claims)
    (h : ∀ ra, claims.index "realm_access" ≠ some (Value.object ra)) :
    extractRoles claims = [] := by
  unfold extractRoles
  split
  · rename_i ra heq
    exact absurd heq (h ra)
  · rfl

theorem extractRoles_no_roles (claims ra : Claims)
    (h1 : claims.index "realm_access" = some (Value.object ra))
    (h2 : ∀ s, Claims.index ra "roles" ≠ some (Value.array s)) :
    extractRoles claims = [] := by
  unfold extractRoles
  rw [h1]
  dsimp only
  split
  · rename_i s heq
    exact absurd heq (h2 s)
  · rfl

theorem ValidateToken_of_claims (v : OIDCValidator) (ctx : Context) (token : String)
    (idToken : IDToken) (claims : Claims)
    (h1 : v.Verify ctx token = Except.ok idToken) (h2 : idToken.Claims = Except.ok claims) :
    v.ValidateToken ctx token = (extractRoles claims, none) := by
  simp [OIDCValidator.ValidateToken, h1, h2]

/-! ## Claims -/

/-- C1: for every list of required roles and every request, `AuthorizationMiddleware`
hands the unchanged request to the next handler and performs nothing else when some
required role equals a role of `GetRoles` of the request context; otherwise it
replies with status 403 and the text "insufficient permissions" and the next handler
is not run. Whether the next handler runs is therefore equivalent to the role
condition. Required roles `["admin", "editor"]` allow a context holding `["editor"]`
and deny one holding `["viewer"]`. -/
theorem C1_authorization_gate (requiredRoles : List String) (next : Handler) (r : Request) :
    ((∃ role ∈ requiredRoles, role ∈ GetRoles r.Context) →
        AuthorizationMiddleware requiredRoles next r = next r) ∧
    ((¬ ∃ role ∈ requiredRoles, role ∈ GetRoles r.Context) →
        AuthorizationMiddleware requiredRoles next r = [Effect.httpError "insufficient permissions" 403]) ∧
    (Effect.handled r ∈ AuthorizationMiddleware requiredRoles recordingHandler r ↔
        ∃ role ∈ requiredRoles, role ∈ GetRoles r.Context) ∧
    (∀ e ∈ AuthorizationMiddleware requiredRoles recordingHandler r,
        e = Effect.handled r ∨ e = Effect.httpError "insufficient permissions" 403) ∧
    AuthorizationMiddleware ["admin", "editor"] next (r.WithContext (InjectAuthContext r.Context ["editor"]))
        = next (r.WithContext (InjectAuthContext r.Context ["editor"])) ∧
    AuthorizationMiddleware ["admin", "editor"] next (r.WithContext (InjectAuthContext r.Context ["viewer"]))
        = [Effect.httpError "insufficient permissions" 403] := by
  refine ⟨AuthorizationMiddleware_allow requiredRoles next r,
    AuthorizationMiddleware_deny requiredRoles next r, ?_, ?_, ?_, ?_⟩
  · by_cases h : ∃ role ∈ requiredRoles, role ∈ GetRoles r.ctx
    · rw [AuthorizationMiddleware_allow requiredRoles _ r h]
      simpa [recordingHandler, Request.Context] using h
    · rw [AuthorizationMiddleware_deny requiredRoles _ r h]
      simpa [Request.Context] using h
  · by_cases h : ∃ role ∈ requiredRoles, role ∈ GetRoles r.ctx
    · rw [AuthorizationMiddleware_allow requiredRoles _ r h]
      simp [recordingHandler]
    · rw [AuthorizationMiddleware_deny requiredRoles _ r h]
      simp [StatusForbidden]
  · apply AuthorizationMiddleware_allow
    exact ⟨"editor", by simp, by simp [GetRoles, InjectAuthContext, WithValue, Context.Value, Request.WithContext]⟩
  · apply AuthorizationMiddleware_deny
    simp [GetRoles, InjectAuthContext, WithValue, Context.Value, Request.WithContext]

/-- Witness for C1 at the request with an empty context to which the roles
`["editor"]` were attached. -/
theorem C1_authorization_gate_witness :
    AuthorizationMiddleware ["admin", "editor"] recordingHandler
        ⟨"GET", "/contracts", [], InjectAuthContext [] ["editor"]⟩
      = [Effect.handled ⟨"GET", "/contracts", [], InjectAuthContext [] ["editor"]⟩] ∧
    AuthorizationMiddleware ["admin", "editor"] recordingHandler
        ⟨"GET", "/contracts", [], InjectAuthContext [] ["viewer"]⟩
      = [Effect.httpError "insufficient permissions" 403] :=
  ⟨(C1_authorization_gate ["admin", "editor"] recordingHandler
      ⟨"GET", "/contracts", [], InjectAuthContext [] ["editor"]⟩).1 (by decide),
   (C1_authorization_gate ["admin", "editor"] recordingHandler
      ⟨"GET", "/contracts", [], InjectAuthContext [] ["viewer"]⟩).2.1 (by decide)⟩

/-- C2: for every header `h`, `ExtractBearerToken h` returns a nil error exactly when
`h` is `"Bearer "` followed by some text; the token it then returns is that text, so
`h` is `"Bearer "` followed by the token (the prefix is removed once and nothing else
is trimmed); when it fails it returns the empty token with an error. The empty
header, `"Token abc"`, `"bearer abc"` and `"Bearer"` fail. -/
theorem C2_extract_bearer_token (h : String) :
    ((ExtractBearerToken h).2 = none ↔ ∃ t : String, h = "Bearer " ++ t) ∧
    ((ExtractBearerToken h).2 = none → h = "Bearer " ++ (ExtractBearerToken h).1) ∧
    (∀ t : String, h = "Bearer " ++ t → ExtractBearerToken h = (t, none)) ∧
    ((ExtractBearerToken h).2 ≠ none →
        (ExtractBearerToken h).1 = "" ∧ ∃ err, (ExtractBearerToken h).2 = some err) ∧
    ExtractBearerToken "" = ("", some "invalid authorization header format") ∧
    ExtractBearerToken "Token abc" = ("", some "invalid authorization header format") ∧
    ExtractBearerToken "bearer abc" = ("", some "invalid authorization header format") ∧
    ExtractBearerToken "Bearer" = ("", some "invalid authorization header format") ∧
    ExtractBearerToken "Bearer  abc " = (" abc ", none) ∧
    ExtractBearerToken "Bearer Bearer abc" = ("Bearer abc", none) := by
  have key : ∀ t : String, h = "Bearer " ++ t → ExtractBearerToken h = (t, none) := by
    intro t ht
    rw [ht]
    exact ExtractBearerToken_append t
  have fail : (¬ ∃ t : String, h = "Bearer " ++ t) →
      ExtractBearerToken h = ("", some "invalid authorization header format") :=
    ExtractBearerToken_of_not_hasPrefix h
  refine ⟨?_, ?_, key, ?_, by decide, by decide, by decide, by decide, by decide, by decide⟩
  · constructor
    · intro hn
      by_contra hp
      rw [fail hp] at hn
      simp at hn
    · rintro ⟨t, ht⟩
      rw [key t ht]
  · intro hn
    by_cases hp : ∃ t : String, h = "Bearer " ++ t
    · obtain ⟨t, ht⟩ := hp
      rw [key t ht]
      exact ht
    · rw [fail hp] at hn
      simp at hn
  · intro hn
    by_cases hp : ∃ t : String, h = "Bearer " ++ t
    · obtain ⟨t, ht⟩ := hp
      rw [key t ht] at hn
      simp at hn
    · rw [fail hp]
      exact ⟨rfl, _, rfl⟩

/-- Witness for C2 at the header `"Bearer abc.def"`. -/
theorem C2_extract_bearer_token_witness :
    "Bearer abc.def" = "Bearer " ++ (ExtractBearerToken "Bearer abc.def").1 ∧
    ExtractBearerToken "Bearer abc.def" = ("abc.def", none) :=
  ⟨(C2_extract_bearer_token "Bearer abc.def").2.1 (by decide),
   (C2_extract_bearer_token "Bearer abc.def").2.2.1 "abc.def" (by decide)⟩

/-- C3, as stated, fails at the header `"Bearer "`: it is not `"Bearer "` followed by
a non-empty token, yet `ExtractBearerToken` succeeds on it, with the empty token. -/
theorem C3_counterexample :
    (¬ ∃ t : String, t ≠ "" ∧ "Bearer " = "Bearer " ++ t) ∧
    ExtractBearerToken "Bearer " = ("", none) := by
  refine ⟨?_, by decide⟩
  rintro ⟨t, hne, ht⟩
  have h2 : bearerPrefix ++ "" = bearerPrefix ++ t := ht
  exact hne (append_left_cancel bearerPrefix "" t h2).symm

/-- C3, amended: for every request whose `Authorization` value does not start with
`"Bearer "`, `ExtractBearerToken` fails on that value and `OIDCMiddleware` replies
with status 401 and does nothing else. For the value that is exactly `"Bearer "`,
`ExtractBearerToken` succeeds with the empty token, `OIDCMiddleware` hands the empty
token to the validator, and it replies with status 401 whenever the validator
rejects the empty token. -/
theorem C3_malformed_header (validator : OIDCValidator) (next : Handler) (r : Request) :
    ((¬ ∃ t : String, r.Header.Get "Authorization" = "Bearer " ++ t) →
        (∃ err, ExtractBearerToken (r.Header.Get "Authorization") = ("", some err)) ∧
        ∃ msg, OIDCMiddleware validator next r = [Effect.httpError msg 401]) ∧
    (r.Header.Get "Authorization" = "Bearer " →
        ExtractBearerToken (r.Header.Get "Authorization") = ("", none) ∧
        ∀ roles err, validator.ValidateToken r.Context "" = (roles, some err) →
          OIDCMiddleware validator next r =
            [Effect.validateToken "", Effect.httpError ("token validation failed: " ++ err) 401]) := by
  constructor
  · intro hp
    refine ⟨⟨_, ExtractBearerToken_of_not_hasPrefix _ hp⟩, ?_⟩
    by_cases he : r.Header.Get "Authorization" = ""
    · exact ⟨_, OIDCMiddleware_missing validator next r he⟩
    · exact ⟨_, OIDCMiddleware_invalid validator next r he hp⟩
  · intro hb
    have hb2 : r.Header.Get "Authorization" = bearerPrefix ++ "" := by
      rw [hb]; decide
    refine ⟨?_, ?_⟩
    · rw [hb2]
      exact ExtractBearerToken_append ""
    · intro roles err hv
      rw [OIDCMiddleware_bearer validator next r "" hb2, hv]
      rfl

/-- Witness for the amended C3 at the values `"Basic dXNlcg=="` and `"Bearer "`, the
latter with a verifier that rejects every token. -/
theorem C3_malformed_header_witness :
    ((∃ err, ExtractBearerToken
        (Header.Get [("Authorization", ["Basic dXNlcg=="])] "Authorization") = ("", some err)) ∧
      ∃ msg, OIDCMiddleware ⟨fun _ _ => Except.error "oidc: malformed jwt"⟩ recordingHandler
          ⟨"GET", "/contracts", [("Authorization", ["Basic dXNlcg=="])], []⟩ =
        [Effect.httpError msg 401]) ∧
    OIDCMiddleware ⟨fun _ _ => Except.error "oidc: malformed jwt"⟩ recordingHandler
        ⟨"GET", "/contracts", [("Authorization", ["Bearer "])], []⟩ =
      [Effect.validateToken "",
       Effect.httpError
         ("token validation failed: " ++ "token verification failed: oidc: malformed jwt") 401] :=
  ⟨(C3_malformed_header ⟨fun _ _ => Except.error "oidc: malformed jwt"⟩ recordingHandler
      ⟨"GET", "/contracts", [("Authorization", ["Basic dXNlcg=="])], []⟩).1 (by
    rintro ⟨t, ht⟩
    have h2 : HasPrefix "Basic dXNlcg==" bearerPrefix = true := (HasPrefix_iff _ _).2 ⟨t, ht⟩
    revert h2
    decide),
   ((C3_malformed_header ⟨fun _ _ => Except.error "oidc: malformed jwt"⟩ recordingHandler
      ⟨"GET", "/contracts", [("Authorization", ["Bearer "])], []⟩).2 rfl).2
    [] "token verification failed: oidc: malformed jwt" rfl⟩

/-- C4: for every request whose `Authorization` header is absent, has no value, or
has the empty value, `OIDCMiddleware` replies with status 401 and the text "missing
authorization header" and performs nothing else: for every validator and every next
handler the validator is not called and the next handler is not run. -/
theorem C4_missing_header (validator : OIDCValidator) (next : Handler) (r : Request)
    (h : List.lookup "Authorization" r.Header = none ∨
         List.lookup "Authorization" r.Header = some [] ∨
         r.Header.Get "Authorization" = "") :
    OIDCMiddleware validator next r = [Effect.httpError "missing authorization header" 401] ∧
    (∀ token, Effect.validateToken token ∉ OIDCMiddleware validator next r) ∧
    (∀ r2, Effect.handled r2 ∉ OIDCMiddleware validator recordingHandler r) := by
  have hg : r.Header.Get "Authorization" = "" := by
    rcases h with h | h | h
    · simp [Header.Get, h]
    · simp [Header.Get, h]
    · exact h
  have hm := fun nx => OIDCMiddleware_missing validator nx r hg
  refine ⟨hm next, ?_, ?_⟩
  · intro token
    rw [hm next]
    simp
  · intro r2
    rw [hm recordingHandler]
    simp

/-- Witness for C4 at a request without an `Authorization` header and a verifier
that would accept every token. -/
theorem C4_missing_header_witness :
    OIDCMiddleware ⟨fun _ _ => Except.ok ⟨Except.ok []⟩⟩ recordingHandler
        ⟨"GET", "/contracts", [("Accept", ["text/plain"])], []⟩ =
      [Effect.httpError "missing authorization header" 401] :=
  (C4_missing_header ⟨fun _ _ => Except.ok ⟨Except.ok []⟩⟩ recordingHandler
      ⟨"GET", "/contracts", [("Accept", ["text/plain"])], []⟩ (Or.inl (by decide))).1

/-- C5: for every request whose `Authorization` value is non-empty and does not start
with `"Bearer "`, `OIDCMiddleware` replies with status 401 and the text "invalid
authorization header" and performs nothing else: for every validator and every next
handler the validator is not called and the next handler is not run. The value
`"Token abc"` is such a value. -/
theorem C5_invalid_header (validator : OIDCValidator) (next : Handler) (r : Request)
    (hne : r.Header.Get "Authorization" ≠ "")
    (hp : ¬ ∃ t : String, r.Header.Get "Authorization" = "Bearer " ++ t) :
    OIDCMiddleware validator next r = [Effect.httpError "invalid authorization header" 401] ∧
    (∀ token, Effect.validateToken token ∉ OIDCMiddleware validator next r) ∧
    (∀ r2, Effect.handled r2 ∉ OIDCMiddleware validator recordingHandler r) ∧
    OIDCMiddleware validator next
        { r with Header := [("Authorization", ["Token abc"])] } =
      [Effect.httpError "invalid authorization header" 401] := by
  have hm := fun nx => OIDCMiddleware_invalid validator nx r hne hp
  refine ⟨hm next, ?_, ?_, ?_⟩
  · intro token
    rw [hm next]
    simp
  · intro r2
    rw [hm recordingHandler]
    simp
  · apply OIDCMiddleware_invalid
    · show Header.Get [("Authorization", ["Token abc"])] "Authorization" ≠ ""
      decide
    · rintro ⟨t, ht⟩
      have h2 : HasPrefix "Token abc" bearerPrefix = true := (HasPrefix_iff _ _).2 ⟨t, ht⟩
      revert h2
      decide

/-- Witness for C5 at the header value `"Token abc"` and a verifier that would accept
every token. -/
theorem C5_invalid_header_witness :
    OIDCMiddleware ⟨fun _ _ => Except.ok ⟨Except.ok []⟩⟩ recordingHandler
        ⟨"GET", "/contracts", [("Authorization", ["Token abc"])], []⟩ =
      [Effect.httpError "invalid authorization header" 401] :=
  (C5_invalid_header ⟨fun _ _ => Except.ok ⟨Except.ok []⟩⟩ recordingHandler
      ⟨"GET", "/contracts", [("Authorization", ["Token abc"])], []⟩ (by decide) (by
    rintro ⟨t, ht⟩
    have h2 : HasPrefix "Token abc" bearerPrefix = true := (HasPrefix_iff _ _).2 ⟨t, ht⟩
    revert h2
    decide)).1

/-- C6: for every request whose `Authorization` value is `"Bearer "` followed by `t`
and every validator that returns an error with text `e` for `t`, `OIDCMiddleware`
calls the validator once and replies with status 401 and the text "token validation
failed: " followed by `e`; for every next handler, the next handler is not run, so no
context carrying an `AuthContext` is handed on. -/
theorem C6_validation_failure (validator : OIDCValidator) (next : Handler) (r : Request)
    (t e : String) (roles : List String)
    (hh : r.Header.Get "Authorization" = "Bearer " ++ t)
    (hv : validator.ValidateToken r.Context t = (roles, some e)) :
    OIDCMiddleware validator next r =
      [Effect.validateToken t, Effect.httpError ("token validation failed: " ++ e) 401] ∧
    (∀ r2, Effect.handled r2 ∉ OIDCMiddleware validator recordingHandler r) := by
  have hm : ∀ nx, OIDCMiddleware validator nx r =
      [Effect.validateToken t, Effect.httpError ("token validation failed: " ++ e) 401] := by
    intro nx
    rw [OIDCMiddleware_bearer validator nx r t hh, hv]
    rfl
  refine ⟨hm next, ?_⟩
  intro r2
  rw [hm recordingHandler]
  simp

/-- Witness for C6 at the header `"Bearer expired.jwt"` and a verifier that reports
an expired token. -/
theorem C6_validation_failure_witness :
    OIDCMiddleware ⟨fun _ _ => Except.error "oidc: token is expired"⟩ recordingHandler
        ⟨"GET", "/contracts", [("Authorization", ["Bearer expired.jwt"])], []⟩ =
      [Effect.validateToken "expired.jwt",
       Effect.httpError ("token validation failed: " ++
         "token verification failed: oidc: token is expired") 401] :=
  (C6_validation_failure ⟨fun _ _ => Except.error "oidc: token is expired"⟩ recordingHandler
      ⟨"GET", "/contracts", [("Authorization", ["Bearer expired.jwt"])], []⟩
      "expired.jwt" "token verification failed: oidc: token is expired" []
      (by decide) rfl).1

/-- C7: for every request whose `Authorization` value is `"Bearer "` followed by `t`
and every validator that succeeds on `t` with the role sequence `rs`,
`OIDCMiddleware` calls the validator, writes no response and runs the next handler
exactly once, on the same request with a context `c` for which `GetRoles c = rs`:
the roles reach the next handler unaltered in content, order and multiplicity. -/
theorem C7_validation_success (validator : OIDCValidator) (next : Handler) (r : Request)
    (t : String) (rs : List String)
    (hh : r.Header.Get "Authorization" = "Bearer " ++ t)
    (hv : validator.ValidateToken r.Context t = (rs, none)) :
    OIDCMiddleware validator next r =
      Effect.validateToken t :: next (r.WithContext (InjectAuthContext r.Context rs)) ∧
    GetRoles (r.WithContext (InjectAuthContext r.Context rs)).Context = rs ∧
    OIDCMiddleware validator recordingHandler r =
      [Effect.validateToken t,
       Effect.handled (r.WithContext (InjectAuthContext r.Context rs))] ∧
    (∀ msg code, Effect.httpError msg code ∉ OIDCMiddleware validator recordingHandler r) ∧
    (∀ c, Effect.handled (r.WithContext c) ∈ OIDCMiddleware validator recordingHandler r →
        GetRoles c = rs) := by
  have hm : ∀ nx, OIDCMiddleware validator nx r =
      Effect.validateToken t :: nx (r.WithContext (InjectAuthContext r.Context rs)) := by
    intro nx
    rw [OIDCMiddleware_bearer validator nx r t hh, hv]
  have hg : GetRoles (r.WithContext (InjectAuthContext r.Context rs)).Context = rs :=
    GetRoles_InjectAuthContext r.Context rs
  refine ⟨hm next, hg, hm recordingHandler, ?_, ?_⟩
  · intro msg code
    rw [hm recordingHandler]
    simp [recordingHandler]
  · intro c hc
    rw [hm recordingHandler] at hc
    simp only [recordingHandler, List.mem_cons, List.mem_singleton, Effect.handled.injEq,
      List.not_mem_nil, or_false] at hc
    rcases hc with hc | hc
    · cases hc
    · have hc2 : c = InjectAuthContext r.Context rs := by
        have := congrArg Request.ctx hc
        simpa [Request.WithContext] using this
      rw [hc2]
      exact GetRoles_InjectAuthContext r.Context rs

/-- Witness for C7 at the header `"Bearer good.jwt"` and a verifier whose claims carry
the roles `["editor", "admin", "editor"]`. -/
theorem C7_validation_success_witness :
    OIDCMiddleware
        ⟨fun _ _ => Except.ok ⟨Except.ok [("realm_access", Value.object [("roles",
          Value.array [Value.string "editor", Value.string "admin", Value.string "editor"])])]⟩⟩
        recordingHandler
        ⟨"GET", "/contracts", [("Authorization", ["Bearer good.jwt"])], []⟩ =
      [Effect.validateToken "good.jwt",
       Effect.handled ⟨"GET", "/contracts", [("Authorization", ["Bearer good.jwt"])],
         [(CtxKey.str "auth", CtxValue.authContext ⟨["editor", "admin", "editor"]⟩)]⟩] :=
  (C7_validation_success
      ⟨fun _ _ => Except.ok ⟨Except.ok [("realm_access", Value.object [("roles",
        Value.array [Value.string "editor", Value.string "admin", Value.string "editor"])])]⟩⟩
      recordingHandler
      ⟨"GET", "/contracts", [("Authorization", ["Bearer good.jwt"])], []⟩
      "good.jwt" ["editor", "admin", "editor"] (by decide) rfl).2.2.1

/-- C8: for every claims mapping whose `realm_access` is a mapping with a `roles`
entry that is a sequence `s`, `extractRoles` returns exactly the string elements of
`s`, in their original order and with duplicates kept: the result, read back as
values, is a subsequence of `s`; a string is in the result exactly when it is an
element of `s`, so every non-string element is dropped and no string element is
dropped or changed; and a sequence made only of strings is returned whole. -/
theorem C8_extract_roles_strings (claims ra : Claims) (s : List Value)
    (h1 : claims.index "realm_access" = some (Value.object ra))
    (h2 : Claims.index ra "roles" = some (Value.array s)) :
    extractRoles claims = stringElements s ∧
    List.Sublist ((extractRoles claims).map Value.string) s ∧
    (∀ str, str ∈ extractRoles claims ↔ Value.string str ∈ s) ∧
    (∀ strs : List String, s = strs.map Value.string → extractRoles claims = strs) ∧
    (∀ a b : List Value, ∀ x : Value, x.asString = none → s = a ++ x :: b →
        extractRoles claims = stringElements a ++ stringElements b) ∧
    (∀ a b : List Value, ∀ str : String, s = a ++ Value.string str :: b →
        extractRoles claims = stringElements a ++ str :: stringElements b) := by
  have h := extractRoles_of_roles claims ra s h1 h2
  refine ⟨h, ?_, ?_, ?_, ?_, ?_⟩
  · rw [h]
    exact stringElements_sublist s
  · intro str
    rw [h]
    exact mem_stringElements s str
  · intro strs hs
    rw [h, hs]
    exact stringElements_map_string strs
  · intro a b x hx hs
    rw [h, hs]
    simp [stringElements, List.filterMap_append, List.filterMap_cons, hx]
  · intro a b str hs
    rw [h, hs]
    simp [stringElements, List.filterMap_append, List.filterMap_cons, Value.asString]

/-- Witness for C8 at the claims of a token whose roles are
`["admin", 7, "editor", null, "admin"]`. -/
theorem C8_extract_roles_strings_witness :
    extractRoles [("sub", Value.string "u1"), ("realm_access", Value.object [("roles",
        Value.array [Value.string "admin", Value.number 7, Value.string "editor", Value.null,
          Value.string "admin"])])] = ["admin", "editor", "admin"] :=
  (C8_extract_roles_strings
      [("sub", Value.string "u1"), ("realm_access", Value.object [("roles",
        Value.array [Value.string "admin", Value.number 7, Value.string "editor", Value.null,
          Value.string "admin"])])]
      [("roles", Value.array [Value.string "admin", Value.number 7, Value.string "editor",
        Value.null, Value.string "admin"])]
      [Value.string "admin", Value.number 7, Value.string "editor", Value.null,
        Value.string "admin"] rfl rfl).1

/-- C9: for every claims mapping in which `realm_access` is missing, or is not a
mapping, or in which `realm_access.roles` is missing, or is not a sequence,
`extractRoles` returns the empty role sequence. `extractRoles` is a total function
into role sequences, with no error result: whenever verification and decoding of a
token succeed, `ValidateToken` returns `extractRoles` of the claims with a nil
error. -/
theorem C9_extract_roles_fallback (claims : Claims) :
    (claims.index "realm_access" = none → extractRoles claims = []) ∧
    (∀ x, claims.index "realm_access" = some x → (∀ ra, x ≠ Value.object ra) →
        extractRoles claims = []) ∧
    (∀ ra, claims.index "realm_access" = some (Value.object ra) →
        Claims.index ra "roles" = none → extractRoles claims = []) ∧
    (∀ ra x, claims.index "realm_access" = some (Value.object ra) →
        Claims.index ra "roles" = some x → (∀ s, x ≠ Value.array s) →
        extractRoles claims = []) ∧
    (∃ roles : List String, extractRoles claims = roles) ∧
    (∀ (v : OIDCValidator) (ctx : Context) (token : String) (idToken : IDToken),
        v.Verify ctx token = Except.ok idToken → idToken.Claims = Except.ok claims →
        v.ValidateToken ctx token = (extractRoles claims, none)) := by
  refine ⟨?_, ?_, ?_, ?_, ⟨_, rfl⟩, ?_⟩
  · intro h
    apply extractRoles_no_realm_access
    intro ra
    rw [h]
    simp
  · intro x h hx
    apply extractRoles_no_realm_access
    intro ra hra
    rw [h] at hra
    exact hx ra (Option.some.inj hra)
  · intro ra h1 h2
    apply extractRoles_no_roles claims ra h1
    intro s
    rw [h2]
    simp
  · intro ra x h1 h2 hx
    apply extractRoles_no_roles claims ra h1
    intro s hs
    rw [h2] at hs
    exact hx s (Option.some.inj hs)
  · intro v ctx token idToken hv hc
    exact ValidateToken_of_claims v ctx token idToken claims hv hc

/-- Witness for C9 at claims without `realm_access`, with a `realm_access` that is a
string, with a `realm_access` that has no `roles`, and with `roles` that is a
string. -/
theorem C9_extract_roles_fallback_witness :
    extractRoles [("sub", Value.string "u1")] = [] ∧
    extractRoles [("realm_access", Value.string "admin")] = [] ∧
    extractRoles [("realm_access", Value.object [("groups", Value.array [])])] = [] ∧
    extractRoles [("realm_access", Value.object [("roles", Value.string "admin")])] = [] :=
  ⟨(C9_extract_roles_fallback [("sub", Value.string "u1")]).1 rfl,
   (C9_extract_roles_fallback [("realm_access", Value.string "admin")]).2.1
      (Value.string "admin") rfl (fun _ h => Value.noConfusion h),
   (C9_extract_roles_fallback
      [("realm_access", Value.object [("groups", Value.array [])])]).2.2.1
      [("groups", Value.array [])] rfl rfl,
   (C9_extract_roles_fallback
      [("realm_access", Value.object [("roles", Value.string "admin")])]).2.2.2.1
      [("roles", Value.string "admin")] (Value.string "admin") rfl rfl
      (fun _ h => Value.noConfusion h)⟩

/-- C10, as stated, fails for a verified token whose `realm_access.roles` is
`["admin", 5]`: the sequence is not made only of strings, yet the derived role
sequence is `["admin"]`, not the empty one. -/
theorem C10_counterexample :
    (¬ ∃ strs : List String,
        Claims.index [("roles", Value.array [Value.string "admin", Value.number 5])] "roles" =
          some (Value.array (strs.map Value.string))) ∧
    extractRoles [("realm_access", Value.object [("roles",
        Value.array [Value.string "admin", Value.number 5])])] = ["admin"] ∧
    OIDCValidator.ValidateToken
        ⟨fun _ _ => Except.ok ⟨Except.ok [("realm_access", Value.object [("roles",
          Value.array [Value.string "admin", Value.number 5])])]⟩⟩ [] "signed.jwt" =
      (["admin"], none) := by
  refine ⟨?_, rfl, rfl⟩
  rintro ⟨strs, h⟩
  have h2 : [Value.string "admin", Value.number 5] = strs.map Value.string := by
    have h3 : some (Value.array [Value.string "admin", Value.number 5]) =
        some (Value.array (strs.map Value.string)) := h
    injection h3 with h4
    injection h4
  match strs, h2 with
  | [], h2 => simp at h2
  | [_], h2 => simp at h2
  | _ :: _ :: _, h2 => simp at h2

/-- C10, amended: for every successfully verified and decoded token whose claims lack
`realm_access`, or whose `realm_access` is not a mapping, or whose
`realm_access.roles` is missing or is not a sequence, `ValidateToken` returns the
empty role sequence and a nil error. When `realm_access.roles` is a sequence,
`ValidateToken` returns its string elements and a nil error, whatever other elements
the sequence has; that result is empty exactly when the sequence has no string
element. -/
theorem C10_validate_token_roles (v : OIDCValidator) (ctx : Context) (token : String)
    (idToken : IDToken) (claims : Claims)
    (hv : v.Verify ctx token = Except.ok idToken) (hc : idToken.Claims = Except.ok claims) :
    (claims.index "realm_access" = none → v.ValidateToken ctx token = ([], none)) ∧
    ((∀ ra, claims.index "realm_access" ≠ some (Value.object ra)) →
        v.ValidateToken ctx token = ([], none)) ∧
    (∀ ra, claims.index "realm_access" = some (Value.object ra) →
        (∀ s, Claims.index ra "roles" ≠ some (Value.array s)) →
        v.ValidateToken ctx token = ([], none)) ∧
    (∀ ra s, claims.index "realm_access" = some (Value.object ra) →
        Claims.index ra "roles" = some (Value.array s) →
        v.ValidateToken ctx token = (stringElements s, none) ∧
        (stringElements s = [] ↔ ∀ str, Value.string str ∉ s)) := by
  have hr := ValidateToken_of_claims v ctx token idToken claims hv hc
  refine ⟨?_, ?_, ?_, ?_⟩
  · intro h
    rw [hr, extractRoles_no_realm_access claims (by intro ra; rw [h]; simp)]
  · intro h
    rw [hr, extractRoles_no_realm_access claims h]
  · intro ra h1 h2
    rw [hr, extractRoles_no_roles claims ra h1 h2]
  · intro ra s h1 h2
    refine ⟨by rw [hr, extractRoles_of_roles claims ra s h1 h2], ?_⟩
    rw [List.eq_nil_iff_forall_not_mem]
    exact forall_congr' fun str => not_congr (mem_stringElements s str)

/-- Witness for the amended C10 at a verified token without `realm_access` and at one
whose roles are `[5, true]`. -/
theorem C10_validate_token_roles_witness :
    OIDCValidator.ValidateToken
        ⟨fun _ _ => Except.ok ⟨Except.ok [("sub", Value.string "u1")]⟩⟩ [] "signed.jwt" =
      ([], none) ∧
    OIDCValidator.ValidateToken
        ⟨fun _ _ => Except.ok ⟨Except.ok [("realm_access", Value.object [("roles",
          Value.array [Value.number 5, Value.bool true])])]⟩⟩ [] "signed.jwt" =
      (stringElements [Value.number 5, Value.bool true], none) :=
  ⟨(C10_validate_token_roles
      ⟨fun _ _ => Except.ok ⟨Except.ok [("sub", Value.string "u1")]⟩⟩ [] "signed.jwt"
      ⟨Except.ok [("sub", Value.string "u1")]⟩ [("sub", Value.string "u1")] rfl rfl).1 rfl,
   ((C10_validate_token_roles
      ⟨fun _ _ => Except.ok ⟨Except.ok [("realm_access", Value.object [("roles",
        Value.array [Value.number 5, Value.bool true])])]⟩⟩ [] "signed.jwt"
      ⟨Except.ok [("realm_access", Value.object [("roles",
        Value.array [Value.number 5, Value.bool true])])]⟩
      [("realm_access", Value.object [("roles",
        Value.array [Value.number 5, Value.bool true])])] rfl rfl).2.2.2
      [("roles", Value.array [Value.number 5, Value.bool true])]
      [Value.number 5, Value.bool true] rfl rfl).1⟩

/-! ## Lemmas on what the handlers hand on -/

theorem GetRoles_of_no_authContext (ctx : Context)
    (h : ∀ ac, ctx.Value (CtxKey.str "auth") ≠ some (CtxValue.authContext ac)) :
    GetRoles ctx = [] := by
  unfold GetRoles
  split
  · rename_i ac heq
    exact absurd heq (h ac)
  · rfl

theorem GetRoles_of_authContext (ctx : Context) (ac : AuthContext)
    (h : ctx.Value (CtxKey.str "auth") = some (CtxValue.authContext ac)) :
    GetRoles ctx = ac.roles := by
  simp [GetRoles, h]

theorem AuthorizationMiddleware_handled_iff (requiredRoles : List String) (r r2 : Request) :
    Effect.handled r2 ∈ AuthorizationMiddleware requiredRoles recordingHandler r ↔
      r2 = r ∧ ∃ role ∈ requiredRoles, role ∈ GetRoles r.Context := by
  by_cases h : ∃ role ∈ requiredRoles, role ∈ GetRoles r.ctx
  · rw [AuthorizationMiddleware_allow requiredRoles _ r h]
    simp only [recordingHandler, List.mem_singleton, Effect.handled.injEq, Request.Context]
    exact ⟨fun e => ⟨e, h⟩, fun e => e.1⟩
  · rw [AuthorizationMiddleware_deny requiredRoles _ r h]
    simp only [List.mem_singleton, Request.Context]
    constructor
    · intro e
      cases e
    · intro e
      exact absurd e.2 h

theorem OIDCMiddleware_success (validator : OIDCValidator) (next : Handler) (r : Request)
    (t : String) (rs : List String)
    (hh : r.Header.Get "Authorization" = bearerPrefix ++ t)
    (hv : validator.ValidateToken r.Context t = (rs, none)) :
    OIDCMiddleware validator next r =
      Effect.validateToken t :: next (r.WithContext (InjectAuthContext r.Context rs)) := by
  rw [OIDCMiddleware_bearer validator next r t hh, hv]

theorem OIDCMiddleware_failure (validator : OIDCValidator) (next : Handler) (r : Request)
    (t e : String) (rs : List String)
    (hh : r.Header.Get "Authorization" = bearerPrefix ++ t)
    (hv : validator.ValidateToken r.Context t = (rs, some e)) :
    OIDCMiddleware validator next r =
      [Effect.validateToken t,
       Effect.httpError ("token validation failed: " ++ e) StatusUnauthorized] := by
  rw [OIDCMiddleware_bearer validator next r t hh, hv]

theorem OIDCMiddleware_handled_iff (validator : OIDCValidator) (r r2 : Request) :
    Effect.handled r2 ∈ OIDCMiddleware validator recordingHandler r ↔
      ∃ t rs, r.Header.Get "Authorization" = bearerPrefix ++ t ∧
        validator.ValidateToken r.Context t = (rs, none) ∧
        r2 = r.WithContext (InjectAuthContext r.Context rs) := by
  by_cases he : r.Header.Get "Authorization" = ""
  · rw [OIDCMiddleware_missing validator _ r he]
    constructor
    · intro h
      simp at h
    · rintro ⟨t, _, ht, _⟩
      rw [he] at ht
      exact absurd ht.symm (bearer_append_ne_empty t)
  · by_cases hp : ∃ t : String, r.Header.Get "Authorization" = bearerPrefix ++ t
    · obtain ⟨t, ht⟩ := hp
      cases hv : validator.ValidateToken r.Context t with
      | mk rs oe =>
        cases oe with
        | none =>
          rw [OIDCMiddleware_success validator _ r t rs ht hv]
          constructor
          · intro h
            simp only [recordingHandler, List.mem_cons, List.mem_singleton,
              Effect.handled.injEq, List.not_mem_nil, or_false] at h
            rcases h with h | h
            · cases h
            · exact ⟨t, rs, ht, hv, h⟩
          · rintro ⟨t2, rs2, ht2, hv2, hr2⟩
            have e : t = t2 := append_left_cancel bearerPrefix t t2 (ht.symm.trans ht2)
            subst e
            rw [hv] at hv2
            have e2 : rs = rs2 := (Prod.mk.inj hv2).1
            subst e2
            rw [hr2]
            simp [recordingHandler]
        | some e =>
          rw [OIDCMiddleware_failure validator _ r t e rs ht hv]
          constructor
          · intro h
            simp at h
          · rintro ⟨t2, rs2, ht2, hv2, _⟩
            have e2 : t = t2 := append_left_cancel bearerPrefix t t2 (ht.symm.trans ht2)
            subst e2
            rw [hv] at hv2
            simp at hv2
    · rw [OIDCMiddleware_invalid validator _ r he hp]
      constructor
      · intro h
        simp at h
      · rintro ⟨t, _, ht, _⟩
        exact absurd ⟨t, ht⟩ hp

/-- C11: for every list of required roles (so for every non-empty one), every request
`r1` whose context has no `AuthContext` under the key `"auth"` (nothing at all, or a
value of another type) and every request `r2` whose context carries an `AuthContext`
with the empty role sequence: `GetRoles` is empty for both, both get status 403 with
the text "insufficient permissions" as the whole outcome, the two outcomes are equal,
and the next handler is run for neither. -/
theorem C11_missing_context_as_empty (requiredRoles : List String) (next : Handler)
    (r1 r2 : Request)
    (h1 : ∀ ac, r1.Context.Value (CtxKey.str "auth") ≠ some (CtxValue.authContext ac))
    (h2 : r2.Context.Value (CtxKey.str "auth") = some (CtxValue.authContext ⟨[]⟩)) :
    GetRoles r1.Context = [] ∧ GetRoles r2.Context = [] ∧
    AuthorizationMiddleware requiredRoles next r1 =
      [Effect.httpError "insufficient permissions" 403] ∧
    AuthorizationMiddleware requiredRoles next r2 =
      [Effect.httpError "insufficient permissions" 403] ∧
    AuthorizationMiddleware requiredRoles next r1 = AuthorizationMiddleware requiredRoles next r2 ∧
    (∀ r3, Effect.handled r3 ∉ AuthorizationMiddleware requiredRoles recordingHandler r1) ∧
    (∀ r3, Effect.handled r3 ∉ AuthorizationMiddleware requiredRoles recordingHandler r2) := by
  have g1 : GetRoles r1.ctx = [] := GetRoles_of_no_authContext r1.ctx h1
  have g2 : GetRoles r2.ctx = [] := GetRoles_of_authContext r2.ctx ⟨[]⟩ h2
  have d1 : ∀ nx, AuthorizationMiddleware requiredRoles nx r1 =
      [Effect.httpError "insufficient permissions" 403] := fun nx =>
    AuthorizationMiddleware_deny requiredRoles nx r1 (by simp [g1])
  have d2 : ∀ nx, AuthorizationMiddleware requiredRoles nx r2 =
      [Effect.httpError "insufficient permissions" 403] := fun nx =>
    AuthorizationMiddleware_deny requiredRoles nx r2 (by simp [g2])
  refine ⟨g1, g2, d1 next, d2 next, (d1 next).trans (d2 next).symm, ?_, ?_⟩
  · intro r3
    rw [d1 recordingHandler]
    simp
  · intro r3
    rw [d2 recordingHandler]
    simp

/-- Witness for C11 with required roles `["admin"]`: a request with an empty context
and a request whose context holds another value under `"auth"`, each against a
request whose context carries `AuthContext` with no roles. -/
theorem C11_missing_context_as_empty_witness :
    AuthorizationMiddleware ["admin"] recordingHandler ⟨"GET", "/contracts", [], []⟩ =
      AuthorizationMiddleware ["admin"] recordingHandler
        ⟨"GET", "/contracts", [], InjectAuthContext [] []⟩ ∧
    AuthorizationMiddleware ["admin"] recordingHandler
        ⟨"GET", "/contracts", [], [(CtxKey.str "auth", CtxValue.other 0)]⟩ =
      AuthorizationMiddleware ["admin"] recordingHandler
        ⟨"GET", "/contracts", [], InjectAuthContext [] []⟩ :=
  ⟨(C11_missing_context_as_empty ["admin"] recordingHandler ⟨"GET", "/contracts", [], []⟩
      ⟨"GET", "/contracts", [], InjectAuthContext [] []⟩
      (fun _ h => Option.noConfusion h) rfl).2.2.2.2.1,
   (C11_missing_context_as_empty ["admin"] recordingHandler
      ⟨"GET", "/contracts", [], [(CtxKey.str "auth", CtxValue.other 0)]⟩
      ⟨"GET", "/contracts", [], InjectAuthContext [] []⟩
      (fun _ h => CtxValue.noConfusion (Option.some.inj h)) rfl).2.2.2.2.1⟩

/-- C12: for every validator and every request, `OIDCMiddleware` runs the next handler
exactly when the `Authorization` value is `"Bearer "` followed by a token on which
the validator returns no error; the request handed on is then the incoming request
with the context `InjectAuthContext` built from the validated roles, so its context
carries an `AuthContext` holding exactly those roles; in every other case no request
is handed on. This holds in particular for requests arriving without an
`AuthContext`. -/
theorem C12_context_iff_validated (validator : OIDCValidator) (r : Request) :
    ((∃ r2, Effect.handled r2 ∈ OIDCMiddleware validator recordingHandler r) ↔
        ∃ t, r.Header.Get "Authorization" = "Bearer " ++ t ∧
          (validator.ValidateToken r.Context t).2 = none) ∧
    (∀ r2, Effect.handled r2 ∈ OIDCMiddleware validator recordingHandler r →
        ∃ t rs, r.Header.Get "Authorization" = "Bearer " ++ t ∧
          validator.ValidateToken r.Context t = (rs, none) ∧
          r2 = r.WithContext (InjectAuthContext r.Context rs) ∧
          r2.Context.Value (CtxKey.str "auth") = some (CtxValue.authContext ⟨rs⟩)) ∧
    ((¬ ∃ t, r.Header.Get "Authorization" = "Bearer " ++ t ∧
          (validator.ValidateToken r.Context t).2 = none) →
        ∀ r2, Effect.handled r2 ∉ OIDCMiddleware validator recordingHandler r) := by
  have key := OIDCMiddleware_handled_iff validator r
  have fwd : ∀ r2, Effect.handled r2 ∈ OIDCMiddleware validator recordingHandler r →
      ∃ t, r.Header.Get "Authorization" = "Bearer " ++ t ∧
        (validator.ValidateToken r.Context t).2 = none := by
    intro r2 h
    obtain ⟨t, rs, ht, hv, _⟩ := (key r2).1 h
    exact ⟨t, ht, by rw [hv]⟩
  refine ⟨⟨fun ⟨r2, h⟩ => fwd r2 h, ?_⟩, ?_, ?_⟩
  · rintro ⟨t, ht, hv⟩
    refine ⟨r.WithContext (InjectAuthContext r.Context (validator.ValidateToken r.Context t).1),
      (key _).2 ⟨t, _, ht, ?_, rfl⟩⟩
    exact Prod.ext rfl hv
  · intro r2 h
    obtain ⟨t, rs, ht, hv, hr⟩ := (key r2).1 h
    refine ⟨t, rs, ht, hv, hr, ?_⟩
    rw [hr]
    rfl
  · intro hn r2 h
    exact hn (fwd r2 h)

/-- Witness for C12: with a verifier that rejects every token, the request with
header `"Bearer forged.jwt"` is not handed on. -/
theorem C12_context_iff_validated_witness :
    ∀ r2, Effect.handled r2 ∉
      OIDCMiddleware ⟨fun _ _ => Except.error "oidc: bad signature"⟩ recordingHandler
        ⟨"GET", "/contracts", [("Authorization", ["Bearer forged.jwt"])], []⟩ :=
  (C12_context_iff_validated ⟨fun _ _ => Except.error "oidc: bad signature"⟩
      ⟨"GET", "/contracts", [("Authorization", ["Bearer forged.jwt"])], []⟩).2.2 (by
    rintro ⟨t, _, hv⟩
    simp [OIDCValidator.ValidateToken] at hv)

/-- C13: `ValidateToken` returns an error or a role sequence, never both. When the
verifier rejects the token with reason `err`, the result is the error "token
verification failed: " followed by `err` and no roles (there is then no verified
token whose claims could be decoded). When the verifier accepts and decoding the
claims fails with reason `err`, the result is the error "failed to parse token
claims: " followed by `err` and no roles. Otherwise the result is
`extractRoles claims` with a nil error. Whatever the error, `OIDCMiddleware` replies
to a request carrying that token with status 401. -/
theorem C13_validate_token_outcomes (v : OIDCValidator) (ctx : Context) (token : String) :
    (∀ err, v.Verify ctx token = Except.error err →
        v.ValidateToken ctx token = ([], some ("token verification failed: " ++ err))) ∧
    (∀ idToken err, v.Verify ctx token = Except.ok idToken →
        idToken.Claims = Except.error err →
        v.ValidateToken ctx token = ([], some ("failed to parse token claims: " ++ err))) ∧
    (∀ idToken claims, v.Verify ctx token = Except.ok idToken →
        idToken.Claims = Except.ok claims →
        v.ValidateToken ctx token = (extractRoles claims, none)) ∧
    ((v.ValidateToken ctx token).2 = none ∨ (v.ValidateToken ctx token).1 = []) ∧
    (∀ (next : Handler) (r : Request) (e : String), r.Context = ctx →
        r.Header.Get "Authorization" = "Bearer " ++ token →
        (v.ValidateToken ctx token).2 = some e →
        OIDCMiddleware v next r =
          [Effect.validateToken token,
           Effect.httpError ("token validation failed: " ++ e) 401]) := by
  refine ⟨?_, ?_, ?_, ?_, ?_⟩
  · intro err h
    simp [OIDCValidator.ValidateToken, h]
  · intro idToken err h1 h2
    simp [OIDCValidator.ValidateToken, h1, h2]
  · intro idToken claims h1 h2
    exact ValidateToken_of_claims v ctx token idToken claims h1 h2
  · cases h1 : v.Verify ctx token with
    | error err => exact Or.inr (by simp [OIDCValidator.ValidateToken, h1])
    | ok idToken =>
      cases h2 : idToken.Claims with
      | error err => exact Or.inr (by simp [OIDCValidator.ValidateToken, h1, h2])
      | ok claims => exact Or.inl (by simp [OIDCValidator.ValidateToken, h1, h2])
  · intro next r e hctx hh he
    subst hctx
    exact OIDCMiddleware_failure v next r token e (v.ValidateToken r.Context token).1 hh
      (Prod.ext rfl he)

/-- Witness for C13: a verifier that rejects the token, and a verifier that accepts
a token whose payload cannot be decoded; the request carrying the latter gets 401. -/
theorem C13_validate_token_outcomes_witness :
    OIDCValidator.ValidateToken ⟨fun _ _ => Except.error "oidc: token is expired"⟩ [] "a.b.c" =
      ([], some ("token verification failed: " ++ "oidc: token is expired")) ∧
    OIDCValidator.ValidateToken
        ⟨fun _ _ => Except.ok ⟨Except.error "unexpected end of JSON input"⟩⟩ [] "a.b.c" =
      ([], some ("failed to parse token claims: " ++ "unexpected end of JSON input")) ∧
    OIDCMiddleware ⟨fun _ _ => Except.ok ⟨Except.error "unexpected end of JSON input"⟩⟩
        recordingHandler ⟨"GET", "/contracts", [("Authorization", ["Bearer a.b.c"])], []⟩ =
      [Effect.validateToken "a.b.c",
       Effect.httpError ("token validation failed: " ++
         "failed to parse token claims: unexpected end of JSON input") 401] :=
  ⟨(C13_validate_token_outcomes ⟨fun _ _ => Except.error "oidc: token is expired"⟩ []
      "a.b.c").1 "oidc: token is expired" rfl,
   (C13_validate_token_outcomes
      ⟨fun _ _ => Except.ok ⟨Except.error "unexpected end of JSON input"⟩⟩ []
      "a.b.c").2.1 ⟨Except.error "unexpected end of JSON input"⟩
      "unexpected end of JSON input" rfl rfl,
   (C13_validate_token_outcomes
      ⟨fun _ _ => Except.ok ⟨Except.error "unexpected end of JSON input"⟩⟩ []
      "a.b.c").2.2.2.2 recordingHandler
      ⟨"GET", "/contracts", [("Authorization", ["Bearer a.b.c"])], []⟩
      "failed to parse token claims: unexpected end of JSON input" rfl (by decide) rfl⟩

/-- C14: for the chain `OIDCMiddleware` followed by `AuthorizationMiddleware required`:
for every token `t` on which the validator succeeds with roles `rs`, every required
list sharing a role with `rs`, and every request with header `"Bearer " ++ t`, the
final handler is run, once, on the request whose context is `InjectAuthContext` of
`rs`, so it sees `GetRoles = rs`; nothing with status 401 or 403 is written. With
claims `realm_access.roles = ["admin"]` and required `["admin"]` the final handler
sees the roles `["admin"]`. -/
theorem C14_chain_success (validator : OIDCValidator) (requiredRoles : List String)
    (final : Handler) (r : Request) (t : String) (rs : List String)
    (hh : r.Header.Get "Authorization" = "Bearer " ++ t)
    (hv : validator.ValidateToken r.Context t = (rs, none))
    (hr : ∃ role ∈ requiredRoles, role ∈ rs) :
    OIDCMiddleware validator (AuthorizationMiddleware requiredRoles final) r =
      Effect.validateToken t :: final (r.WithContext (InjectAuthContext r.Context rs)) ∧
    GetRoles (r.WithContext (InjectAuthContext r.Context rs)).Context = rs ∧
    OIDCMiddleware validator (AuthorizationMiddleware requiredRoles recordingHandler) r =
      [Effect.validateToken t,
       Effect.handled (r.WithContext (InjectAuthContext r.Context rs))] ∧
    (∀ msg code, Effect.httpError msg code ∉
        OIDCMiddleware validator (AuthorizationMiddleware requiredRoles recordingHandler) r) ∧
    (∀ c, Effect.handled (r.WithContext c) ∈
        OIDCMiddleware validator (AuthorizationMiddleware requiredRoles recordingHandler) r →
        GetRoles c = rs) ∧
    OIDCMiddleware
        ⟨fun _ _ => Except.ok ⟨Except.ok [("realm_access", Value.object [("roles",
          Value.array [Value.string "admin"])])]⟩⟩
        (AuthorizationMiddleware ["admin"] recordingHandler)
        ⟨"GET", "/contracts", [("Authorization", ["Bearer eyJ.valid.token"])], []⟩ =
      [Effect.validateToken "eyJ.valid.token",
       Effect.handled ⟨"GET", "/contracts", [("Authorization", ["Bearer eyJ.valid.token"])],
         [(CtxKey.str "auth", CtxValue.authContext ⟨["admin"]⟩)]⟩] := by
  have hg : GetRoles (r.WithContext (InjectAuthContext r.Context rs)).Context = rs :=
    GetRoles_InjectAuthContext r.Context rs
  have hm : ∀ fin : Handler,
      OIDCMiddleware validator (AuthorizationMiddleware requiredRoles fin) r =
        Effect.validateToken t :: fin (r.WithContext (InjectAuthContext r.Context rs)) := by
    intro fin
    rw [OIDCMiddleware_success validator _ r t rs hh hv]
    rw [AuthorizationMiddleware_allow requiredRoles fin _ (by
      obtain ⟨role, h1, h2⟩ := hr
      refine ⟨role, h1, ?_⟩
      have hg2 : GetRoles (r.WithContext (InjectAuthContext r.Context rs)).ctx = rs := hg
      rw [hg2]
      exact h2)]
  refine ⟨hm final, hg, hm recordingHandler, ?_, ?_, by decide⟩
  · intro msg code
    rw [hm recordingHandler]
    simp [recordingHandler]
  · intro c hc
    rw [hm recordingHandler] at hc
    simp only [recordingHandler, List.mem_cons, List.mem_singleton, Effect.handled.injEq,
      List.not_mem_nil, or_false] at hc
    rcases hc with hc | hc
    · cases hc
    · have hc2 : c = InjectAuthContext r.Context rs := by
        have := congrArg Request.ctx hc
        simpa [Request.WithContext] using this
      rw [hc2]
      exact GetRoles_InjectAuthContext r.Context rs

/-- Witness for C14: claims with roles `["viewer", "admin"]`, required roles
`["admin", "editor"]`. -/
theorem C14_chain_success_witness :
    OIDCMiddleware
        ⟨fun _ _ => Except.ok ⟨Except.ok [("realm_access", Value.object [("roles",
          Value.array [Value.string "viewer", Value.string "admin"])])]⟩⟩
        (AuthorizationMiddleware ["admin", "editor"] recordingHandler)
        ⟨"GET", "/contracts", [("Authorization", ["Bearer eyJ.valid.token"])], []⟩ =
      [Effect.validateToken "eyJ.valid.token",
       Effect.handled (Request.WithContext
         ⟨"GET", "/contracts", [("Authorization", ["Bearer eyJ.valid.token"])], []⟩
         (InjectAuthContext [] ["viewer", "admin"]))] :=
  (C14_chain_success
      ⟨fun _ _ => Except.ok ⟨Except.ok [("realm_access", Value.object [("roles",
        Value.array [Value.string "viewer", Value.string "admin"])])]⟩⟩
      ["admin", "editor"] recordingHandler
      ⟨"GET", "/contracts", [("Authorization", ["Bearer eyJ.valid.token"])], []⟩
      "eyJ.valid.token" ["viewer", "admin"] (by decide) rfl
      ⟨"admin", by decide, by decide⟩).2.2.1

/-- C15: for the chain `OIDCMiddleware` followed by `AuthorizationMiddleware required`,
for every required list and every final handler: a request without `Authorization`
value gets 401 "missing authorization header"; one with a non-empty value not
starting with `"Bearer "` gets 401 "invalid authorization header"; one whose token
the validator rejects with `e` gets 401 "token validation failed: " followed by `e`.
In each case that is the whole outcome whatever handler follows the authentication
stage, so the role gate is not reached and no 403 is written. With the recording
final handler, a 403 appears only for requests whose token the validator accepted.
An absent header with required `["admin"]` gives 401 "missing authorization
header". -/
theorem C15_chain_auth_failure (validator : OIDCValidator) (requiredRoles : List String)
    (final : Handler) (r : Request) :
    (r.Header.Get "Authorization" = "" →
        ∀ nx : Handler, OIDCMiddleware validator nx r =
          [Effect.httpError "missing authorization header" 401]) ∧
    (r.Header.Get "Authorization" ≠ "" →
        (¬ ∃ t : String, r.Header.Get "Authorization" = "Bearer " ++ t) →
        ∀ nx : Handler, OIDCMiddleware validator nx r =
          [Effect.httpError "invalid authorization header" 401]) ∧
    (∀ t e rs, r.Header.Get "Authorization" = "Bearer " ++ t →
        validator.ValidateToken r.Context t = (rs, some e) →
        ∀ nx : Handler, OIDCMiddleware validator nx r =
          [Effect.validateToken t, Effect.httpError ("token validation failed: " ++ e) 401]) ∧
    ((¬ ∃ t, r.Header.Get "Authorization" = "Bearer " ++ t ∧
          (validator.ValidateToken r.Context t).2 = none) →
        (∃ msg, Effect.httpError msg 401 ∈
          OIDCMiddleware validator (AuthorizationMiddleware requiredRoles final) r) ∧
        ∀ msg, Effect.httpError msg 403 ∉
          OIDCMiddleware validator (AuthorizationMiddleware requiredRoles final) r) ∧
    (∀ msg, Effect.httpError msg 403 ∈
          OIDCMiddleware validator (AuthorizationMiddleware requiredRoles recordingHandler) r →
        ∃ t, r.Header.Get "Authorization" = "Bearer " ++ t ∧
          (validator.ValidateToken r.Context t).2 = none) ∧
    OIDCMiddleware validator (AuthorizationMiddleware ["admin"] final)
        { r with Header := [] } = [Effect.httpError "missing authorization header" 401] := by
  have c1 : r.Header.Get "Authorization" = "" →
      ∀ nx : Handler, OIDCMiddleware validator nx r =
        [Effect.httpError "missing authorization header" 401] :=
    fun h nx => OIDCMiddleware_missing validator nx r h
  have c2 : r.Header.Get "Authorization" ≠ "" →
      (¬ ∃ t : String, r.Header.Get "Authorization" = "Bearer " ++ t) →
      ∀ nx : Handler, OIDCMiddleware validator nx r =
        [Effect.httpError "invalid authorization header" 401] :=
    fun h hp nx => OIDCMiddleware_invalid validator nx r h hp
  have c3 : ∀ t e rs, r.Header.Get "Authorization" = "Bearer " ++ t →
      validator.ValidateToken r.Context t = (rs, some e) →
      ∀ nx : Handler, OIDCMiddleware validator nx r =
        [Effect.validateToken t, Effect.httpError ("token validation failed: " ++ e) 401] :=
    fun t e rs hh hv nx => OIDCMiddleware_failure validator nx r t e rs hh hv
  have c4 : ∀ nx : Handler, (¬ ∃ t, r.Header.Get "Authorization" = "Bearer " ++ t ∧
        (validator.ValidateToken r.Context t).2 = none) →
      (∃ msg, Effect.httpError msg 401 ∈ OIDCMiddleware validator nx r) ∧
      ∀ msg, Effect.httpError msg 403 ∉ OIDCMiddleware validator nx r := by
    intro nx hn
    by_cases he : r.Header.Get "Authorization" = ""
    · rw [c1 he nx]
      exact ⟨⟨_, List.mem_singleton.2 rfl⟩, by simp⟩
    · by_cases hp : ∃ t : String, r.Header.Get "Authorization" = "Bearer " ++ t
      · obtain ⟨t, ht⟩ := hp
        cases hv : validator.ValidateToken r.Context t with
        | mk rs oe =>
          cases oe with
          | none => exact absurd ⟨t, ht, by rw [hv]⟩ hn
          | some e =>
            rw [c3 t e rs ht hv nx]
            exact ⟨⟨_, List.mem_cons_of_mem _ (List.mem_singleton.2 rfl)⟩, by simp⟩
      · rw [c2 he hp nx]
        exact ⟨⟨_, List.mem_singleton.2 rfl⟩, by simp⟩
  refine ⟨c1, c2, c3, c4 _, ?_, ?_⟩
  · intro msg hm
    by_contra hn
    exact (c4 _ hn).2 msg hm
  · exact OIDCMiddleware_missing validator _ _ rfl

/-- Witness for C15: required roles `["admin"]`, a verifier that would accept every
token, and requests without header and with the header `"Token abc"`. -/
theorem C15_chain_auth_failure_witness :
    OIDCMiddleware ⟨fun _ _ => Except.ok ⟨Except.ok []⟩⟩
        (AuthorizationMiddleware ["admin"] recordingHandler)
        ⟨"GET", "/contracts", [], []⟩ =
      [Effect.httpError "missing authorization header" 401] ∧
    OIDCMiddleware ⟨fun _ _ => Except.ok ⟨Except.ok []⟩⟩
        (AuthorizationMiddleware ["admin"] recordingHandler)
        ⟨"GET", "/contracts", [("Authorization", ["Token abc"])], []⟩ =
      [Effect.httpError "invalid authorization header" 401] :=
  ⟨(C15_chain_auth_failure ⟨fun _ _ => Except.ok ⟨Except.ok []⟩⟩ ["admin"] recordingHandler
      ⟨"GET", "/contracts", [], []⟩).1 rfl _,
   (C15_chain_auth_failure ⟨fun _ _ => Except.ok ⟨Except.ok []⟩⟩ ["admin"] recordingHandler
      ⟨"GET", "/contracts", [("Authorization", ["Token abc"])], []⟩).2.1 (by decide) (by
    rintro ⟨t, ht⟩
    have h2 : HasPrefix "Token abc" bearerPrefix = true := (HasPrefix_iff _ _).2 ⟨t, ht⟩
    revert h2
    decide) _⟩

/-! ## Lemmas on the decision of the role gate -/

theorem gateAllows_iff (requiredRoles : List String) (r : Request) :
    gateAllows requiredRoles r ↔ ∃ role ∈ requiredRoles, role ∈ GetRoles r.Context := by
  unfold gateAllows
  rw [AuthorizationMiddleware_handled_iff]
  exact ⟨fun h => h.2, fun h => ⟨rfl, h⟩⟩

theorem gateAllows_congr (req1 req2 : List String) (r1 r2 : Request)
    (hq : ∀ x, x ∈ req1 ↔ x ∈ req2)
    (hr : ∀ x, x ∈ GetRoles r1.Context ↔ x ∈ GetRoles r2.Context) :
    gateAllows req1 r1 ↔ gateAllows req2 r2 := by
  rw [gateAllows_iff, gateAllows_iff]
  constructor
  · rintro ⟨role, h1, h2⟩
    exact ⟨role, (hq role).1 h1, (hr role).1 h2⟩
  · rintro ⟨role, h1, h2⟩
    exact ⟨role, (hq role).2 h1, (hr role).2 h2⟩

theorem gateAllows_mono (req1 req2 : List String) (r1 r2 : Request)
    (hq : ∀ x, x ∈ req1 → x ∈ req2)
    (hr : ∀ x, x ∈ GetRoles r1.Context → x ∈ GetRoles r2.Context)
    (h : gateAllows req1 r1) : gateAllows req2 r2 := by
  rw [gateAllows_iff] at h ⊢
  obtain ⟨role, h1, h2⟩ := h
  exact ⟨role, hq role h1, hr role h2⟩

theorem GetRoles_WithContext_Inject (r : Request) (ctx : Context) (roles : List String) :
    GetRoles (r.WithContext (InjectAuthContext ctx roles)).Context = roles :=
  GetRoles_InjectAuthContext ctx roles

/-! ## Lemmas on token validation over explicit memory -/

theorem extractRoles_mem_eq (claims : Claims) :
    extractRoles_mem claims = (extractRoles claims, claims) := by
  unfold extractRoles_mem extractRoles
  split
  · split <;> rfl
  · rfl

theorem ValidateToken_mem_eq {σ : Type} (lib : Library σ) (m : Memory σ) (ctx : Context)
    (token : String) :
    ValidateToken_mem lib m ctx token =
      ((lib.validatorAt m).ValidateToken ctx token,
        { m with lib := (lib.Verify m.validator.verifier m.lib ctx token).2 }) := by
  unfold ValidateToken_mem OIDCValidator.ValidateToken Library.validatorAt
  dsimp only
  generalize lib.Verify m.validator.verifier m.lib ctx token = out
  obtain ⟨res, s⟩ := out
  cases res with
  | error err => rfl
  | ok idToken =>
    dsimp only
    cases idToken.Claims with
    | error err => rfl
    | ok claims => simp [extractRoles_mem_eq]

/-- When the verifier's outcome changes between two calls (here the token expires
after the first call), the two results differ: the first call returns the roles, the
second the verification error. -/
theorem ValidateToken_mem_outcome_changes :
    (ValidateToken_mem (clockLibrary 1)
        ⟨⟨1, 2, ⟨"https://keycloak.example.com/auth/realms/dcs", "dcs-service"⟩⟩, 0⟩
        [] "a.b.c").1 = (["admin", "editor"], none) ∧
    (ValidateToken_mem (clockLibrary 1)
        ⟨⟨1, 2, ⟨"https://keycloak.example.com/auth/realms/dcs", "dcs-service"⟩⟩, 1⟩
        [] "a.b.c").1 = ([], some "token verification failed: oidc: token is expired") := by
  constructor <;> rfl

/-- C16: run `ValidateToken` twice in a row on the same token, the second call on the
memory the first one leaves. Neither call changes the validator struct; the only
part of memory that changes is the state the library keeps behind `Verify`. Each
result is what the value-level `ValidateToken` gives for the library's outcome at
that moment: the error "token verification failed: ..." when the verifier rejects,
`extractRoles` of the claims with a nil error when it accepts. The result depends on
nothing but that outcome (not on the provider, the configuration, the context or the
rest of memory), so when the verifier's outcome for the token is the same in both
calls, both calls return the same role sequence and the same error. `extractRoles`
returns the claims mapping as it received it. -/
theorem C16_validate_token_twice {σ : Type} (lib : Library σ) (m0 m1 m2 : Memory σ)
    (ctx : Context) (token : String) (r1 r2 : List String × Option String)
    (h1 : ValidateToken_mem lib m0 ctx token = (r1, m1))
    (h2 : ValidateToken_mem lib m1 ctx token = (r2, m2)) :
    (m1.validator = m0.validator ∧ m2.validator = m0.validator) ∧
    (m1 = { m0 with lib := (lib.Verify m0.validator.verifier m0.lib ctx token).2 } ∧
      m2 = { m1 with lib := (lib.Verify m0.validator.verifier m1.lib ctx token).2 }) ∧
    (r1 = (lib.validatorAt m0).ValidateToken ctx token ∧
      r2 = (lib.validatorAt m1).ValidateToken ctx token) ∧
    ((lib.Verify m0.validator.verifier m0.lib ctx token).1 =
        (lib.Verify m0.validator.verifier m1.lib ctx token).1 → r1 = r2) ∧
    (∀ (lib2 : Library σ) (m : Memory σ) (ctx2 : Context),
        (lib2.Verify m.validator.verifier m.lib ctx2 token).1 =
          (lib.Verify m0.validator.verifier m0.lib ctx token).1 →
        (ValidateToken_mem lib2 m ctx2 token).1 = r1) ∧
    (∀ err, (lib.Verify m0.validator.verifier m0.lib ctx token).1 = Except.error err →
        r1 = ([], some ("token verification failed: " ++ err))) ∧
    (∀ idToken claims,
        (lib.Verify m0.validator.verifier m0.lib ctx token).1 = Except.ok idToken →
        (lib.Verify m0.validator.verifier m1.lib ctx token).1 = Except.ok idToken →
        idToken.Claims = Except.ok claims →
        r1 = (extractRoles claims, none) ∧ r2 = (extractRoles claims, none)) ∧
    (∀ claims, extractRoles_mem claims = (extractRoles claims, claims)) := by
  have run := fun (l : Library σ) (m : Memory σ) (c : Context) =>
    ValidateToken_mem_eq l m c token
  have e1 := (run lib m0 ctx).symm.trans h1
  have e2 := (run lib m1 ctx).symm.trans h2
  have hr1 : r1 = (lib.validatorAt m0).ValidateToken ctx token := (Prod.mk.inj e1).1.symm
  have hm1 : m1 = { m0 with lib := (lib.Verify m0.validator.verifier m0.lib ctx token).2 } :=
    (Prod.mk.inj e1).2.symm
  have hv1 : m1.validator = m0.validator := by rw [hm1]
  have hr2 : r2 = (lib.validatorAt m1).ValidateToken ctx token := (Prod.mk.inj e2).1.symm
  have hm2 : m2 = { m1 with lib := (lib.Verify m0.validator.verifier m1.lib ctx token).2 } := by
    rw [← hv1]
    exact (Prod.mk.inj e2).2.symm
  have hv2 : m2.validator = m0.validator := by rw [hm2, hv1]
  have dep : ∀ (la lb : Library σ) (ma mb : Memory σ) (ca cb : Context),
      (la.Verify ma.validator.verifier ma.lib ca token).1 =
        (lb.Verify mb.validator.verifier mb.lib cb token).1 →
      (la.validatorAt ma).ValidateToken ca token = (lb.validatorAt mb).ValidateToken cb token := by
    intro la lb ma mb ca cb h
    simp only [OIDCValidator.ValidateToken, Library.validatorAt, h]
  refine ⟨⟨hv1, hv2⟩, ⟨hm1, hm2⟩, ⟨hr1, hr2⟩, ?_, ?_, ?_, ?_, extractRoles_mem_eq⟩
  · intro h
    rw [hr1, hr2]
    exact dep lib lib m0 m1 ctx ctx (by rw [hv1]; exact h)
  · intro lib2 m ctx2 h
    rw [run lib2 m ctx2, hr1]
    exact dep lib2 lib m m0 ctx2 ctx h
  · intro err h
    rw [hr1]
    simp [OIDCValidator.ValidateToken, Library.validatorAt, h]
  · intro idToken claims ha hb hc
    have hb2 : (lib.Verify m1.validator.verifier m1.lib ctx token).1 = Except.ok idToken := by
      rw [hv1]; exact hb
    rw [hr1, hr2]
    exact ⟨ValidateToken_of_claims _ ctx token idToken claims ha hc,
      ValidateToken_of_claims _ ctx token idToken claims hb2 hc⟩

/-- Witness for C16: the token `"a.b.c"` validated twice against a library whose
clock advances with every call and stays below the expiry: the validator struct is
the same after both calls, and the second call returns what the first returned, the
roles `["admin", "editor"]`. -/
theorem C16_validate_token_twice_witness :
    ValidateToken_mem (clockLibrary 10)
        ⟨⟨1, 2, ⟨"https://keycloak.example.com/auth/realms/dcs", "dcs-service"⟩⟩, 0⟩
        [] "a.b.c" =
      ((["admin", "editor"], none),
        ⟨⟨1, 2, ⟨"https://keycloak.example.com/auth/realms/dcs", "dcs-service"⟩⟩, 1⟩) ∧
    ValidateToken_mem (clockLibrary 10)
        ⟨⟨1, 2, ⟨"https://keycloak.example.com/auth/realms/dcs", "dcs-service"⟩⟩, 1⟩
        [] "a.b.c" =
      ((["admin", "editor"], none),
        ⟨⟨1, 2, ⟨"https://keycloak.example.com/auth/realms/dcs", "dcs-service"⟩⟩, 2⟩) ∧
    (ValidateToken_mem (clockLibrary 10)
        ⟨⟨1, 2, ⟨"https://keycloak.example.com/auth/realms/dcs", "dcs-service"⟩⟩, 1⟩
        [] "a.b.c").1 = (["admin", "editor"], none) :=
  ⟨rfl, rfl,
   (C16_validate_token_twice (clockLibrary 10)
      ⟨⟨1, 2, ⟨"https://keycloak.example.com/auth/realms/dcs", "dcs-service"⟩⟩, 0⟩
      ⟨⟨1, 2, ⟨"https://keycloak.example.com/auth/realms/dcs", "dcs-service"⟩⟩, 1⟩
      ⟨⟨1, 2, ⟨"https://keycloak.example.com/auth/realms/dcs", "dcs-service"⟩⟩, 2⟩
      [] "a.b.c" (["admin", "editor"], none) (["admin", "editor"], none)
      rfl rfl).2.2.2.2.1 (clockLibrary 10)
      ⟨⟨1, 2, ⟨"https://keycloak.example.com/auth/realms/dcs", "dcs-service"⟩⟩, 1⟩ [] rfl⟩

/-- C17: for every context `ctx` and role sequence `rs`,
`GetRoles (InjectAuthContext ctx rs) = rs`, and `HasRole (InjectAuthContext ctx rs) r`
holds exactly when `r` is an element of `rs`, by exact string equality (a role
differing in case or by a space is not held); injecting again replaces the roles:
`GetRoles (InjectAuthContext (InjectAuthContext ctx a) b) = b`. -/
theorem C17_inject_get_roles (ctx : Context) (rs a b : List String) (r : String) :
    GetRoles (InjectAuthContext ctx rs) = rs ∧
    (HasRole (InjectAuthContext ctx rs) r = true ↔ r ∈ rs) ∧
    GetRoles (InjectAuthContext (InjectAuthContext ctx a) b) = b ∧
    HasRole (InjectAuthContext ctx ["admin"]) "admin" = true ∧
    HasRole (InjectAuthContext ctx ["admin"]) "Admin" = false ∧
    HasRole (InjectAuthContext ctx ["admin"]) "admin " = false ∧
    HasRole (InjectAuthContext (InjectAuthContext ctx ["admin"]) ["viewer"]) "admin" = false := by
  have hb : ∀ (c : Context) (l : List String) (x : String),
      HasRole (InjectAuthContext c l) x = true ↔ x ∈ l := by
    intro c l x
    rw [HasRole_iff, GetRoles_InjectAuthContext]
  refine ⟨GetRoles_InjectAuthContext ctx rs, hb ctx rs r,
    GetRoles_InjectAuthContext _ b, (hb _ _ _).2 (by decide), ?_, ?_, ?_⟩
  · rw [← Bool.not_eq_true, hb]
    decide
  · rw [← Bool.not_eq_true, hb]
    decide
  · rw [← Bool.not_eq_true, hb]
    decide

/-- C18: `AuthorizationMiddleware` with the empty list of required roles replies to
every request with status 403 and the text "insufficient permissions" and never runs
the next handler, whatever roles the context holds. -/
theorem C18_empty_required_denies (next : Handler) (r : Request) (ctx : Context)
    (roles : List String) :
    AuthorizationMiddleware [] next r = [Effect.httpError "insufficient permissions" 403] ∧
    (∀ r2, Effect.handled r2 ∉ AuthorizationMiddleware [] recordingHandler r) ∧
    AuthorizationMiddleware [] next (r.WithContext (InjectAuthContext ctx roles)) =
      [Effect.httpError "insufficient permissions" 403] ∧
    ¬ gateAllows [] r := by
  have d : ∀ (nx : Handler) (q : Request),
      AuthorizationMiddleware [] nx q = [Effect.httpError "insufficient permissions" 403] :=
    fun nx q => AuthorizationMiddleware_deny [] nx q (by simp)
  refine ⟨d next r, ?_, d next _, ?_⟩
  · intro r2
    rw [d recordingHandler r]
    simp
  · rw [gateAllows_iff]
    simp

/-- C19: whether `AuthorizationMiddleware` lets a request through depends only on the
set of required roles and the set of roles held by the context: two required lists
with the same elements and two contexts whose roles have the same elements give the
same decision, so permuting or duplicating entries of either list changes nothing;
enlarging either list never turns an allowed request into a denied one. The decision
fixes the outcome: an allowed request is handed unchanged to the next handler, a
denied one gets 403. -/
theorem C19_decision_depends_on_sets (req1 req2 : List String) (r1 r2 : Request) :
    ((∀ x, x ∈ req1 ↔ x ∈ req2) →
        (∀ x, x ∈ GetRoles r1.Context ↔ x ∈ GetRoles r2.Context) →
        (gateAllows req1 r1 ↔ gateAllows req2 r2)) ∧
    (req1.Perm req2 → (gateAllows req1 r1 ↔ gateAllows req2 r1)) ∧
    (∀ ctx roles1 roles2, List.Perm roles1 roles2 →
        (gateAllows req1 (r1.WithContext (InjectAuthContext ctx roles1)) ↔
          gateAllows req1 (r1.WithContext (InjectAuthContext ctx roles2)))) ∧
    (∀ x, x ∈ req1 → (gateAllows (x :: req1) r1 ↔ gateAllows req1 r1)) ∧
    (gateAllows (req1 ++ req1) r1 ↔ gateAllows req1 r1) ∧
    (∀ ctx roles x, x ∈ roles →
        (gateAllows req1 (r1.WithContext (InjectAuthContext ctx (x :: roles))) ↔
          gateAllows req1 (r1.WithContext (InjectAuthContext ctx roles)))) ∧
    ((∀ x, x ∈ req1 → x ∈ req2) →
        (∀ x, x ∈ GetRoles r1.Context → x ∈ GetRoles r2.Context) →
        gateAllows req1 r1 → gateAllows req2 r2) ∧
    (∀ a b x, req1 = a ++ b → gateAllows req1 r1 → gateAllows (a ++ x :: b) r1) ∧
    (∀ ctx a b x, gateAllows req1 (r1.WithContext (InjectAuthContext ctx (a ++ b))) →
        gateAllows req1 (r1.WithContext (InjectAuthContext ctx (a ++ x :: b)))) ∧
    ((gateAllows req1 r1 ∧ ∀ next : Handler, AuthorizationMiddleware req1 next r1 = next r1) ∨
      (¬ gateAllows req1 r1 ∧ ∀ next : Handler, AuthorizationMiddleware req1 next r1 =
        [Effect.httpError "insufficient permissions" 403])) := by
  refine ⟨gateAllows_congr req1 req2 r1 r2, ?_, ?_, ?_, ?_, ?_,
    gateAllows_mono req1 req2 r1 r2, ?_, ?_, ?_⟩
  · intro hp
    exact gateAllows_congr req1 req2 r1 r1 (fun x => hp.mem_iff) (fun _ => Iff.rfl)
  · intro ctx roles1 roles2 hp
    apply gateAllows_congr req1 req1 _ _ (fun _ => Iff.rfl)
    intro x
    rw [GetRoles_WithContext_Inject, GetRoles_WithContext_Inject]
    exact hp.mem_iff
  · intro x hx
    apply gateAllows_congr _ _ r1 r1 _ (fun _ => Iff.rfl)
    intro y
    simp only [List.mem_cons]
    constructor
    · rintro (h | h)
      · rw [h]; exact hx
      · exact h
    · exact Or.inr
  · apply gateAllows_congr _ _ r1 r1 _ (fun _ => Iff.rfl)
    intro y
    simp
  · intro ctx roles x hx
    apply gateAllows_congr req1 req1 _ _ (fun _ => Iff.rfl)
    intro y
    rw [GetRoles_WithContext_Inject, GetRoles_WithContext_Inject]
    simp only [List.mem_cons]
    constructor
    · rintro (h | h)
      · rw [h]; exact hx
      · exact h
    · exact Or.inr
  · intro a b x hab h
    apply gateAllows_mono req1 _ r1 r1 _ (fun _ hy => hy) h
    intro y hy
    rw [hab] at hy
    simp only [List.mem_append, List.mem_cons] at hy ⊢
    rcases hy with hy | hy
    · exact Or.inl hy
    · exact Or.inr (Or.inr hy)
  · intro ctx a b x h
    apply gateAllows_mono req1 req1 _ _ (fun _ hy => hy) _ h
    intro y hy
    rw [GetRoles_WithContext_Inject] at hy ⊢
    simp only [List.mem_append, List.mem_cons] at hy ⊢
    rcases hy with hy | hy
    · exact Or.inl hy
    · exact Or.inr (Or.inr hy)
  · by_cases h : ∃ role ∈ req1, role ∈ GetRoles r1.ctx
    · exact Or.inl ⟨(gateAllows_iff req1 r1).2 h,
        fun next => AuthorizationMiddleware_allow req1 next r1 h⟩
    · exact Or.inr ⟨fun hg => h ((gateAllows_iff req1 r1).1 hg),
        fun next => AuthorizationMiddleware_deny req1 next r1 h⟩

/-- Witness for C19: the required lists `["admin", "editor"]` and
`["editor", "admin", "editor"]` against contexts holding `["viewer", "editor"]` and
`["editor", "viewer", "viewer"]`. -/
theorem C19_decision_depends_on_sets_witness :
    gateAllows ["admin", "editor"]
        ⟨"GET", "/contracts", [], InjectAuthContext [] ["viewer", "editor"]⟩ ↔
      gateAllows ["editor", "admin", "editor"]
        ⟨"GET", "/contracts", [], InjectAuthContext [] ["editor", "viewer", "viewer"]⟩ :=
  (C19_decision_depends_on_sets ["admin", "editor"] ["editor", "admin", "editor"]
      ⟨"GET", "/contracts", [], InjectAuthContext [] ["viewer", "editor"]⟩
      ⟨"GET", "/contracts", [], InjectAuthContext [] ["editor", "viewer", "viewer"]⟩).1
    (by
      intro x
      simp only [List.mem_cons, List.mem_singleton, List.not_mem_nil, or_false]
      tauto)
    (by
      intro x
      show x ∈ GetRoles (InjectAuthContext [] ["viewer", "editor"]) ↔
        x ∈ GetRoles (InjectAuthContext [] ["editor", "viewer", "viewer"])
      rw [GetRoles_InjectAuthContext [] ["viewer", "editor"],
        GetRoles_InjectAuthContext [] ["editor", "viewer", "viewer"]]
      simp only [List.mem_cons, List.mem_singleton, List.not_mem_nil, or_false]
      tauto)

end DCS
